import Mathlib

/-!
Verification of the network-layer ingress path of `src/ip.c` (a minimal
user-space IPv4 stack).  The C code is shallowly embedded: byte buffers
become `List Nat` (each entry a `uint8_t` value), C strings become
`List Char` (the NUL terminator is the end of the list), 32-bit addresses
become `Nat` values below `2^32` assembled from the four stored bytes in
the host's little-endian order (the order in which `ip_addr_pton` writes
them and `ip_addr_ntop` reads them), and fallible calls return `Option`
or an explicit status code.

External collaborators that are declared but not defined in `src/`
(`cksum16`, `ntoh16`, the `net_*` device functions and the `ip.h`
constants) are modelled from the spec; each such definition carries a
`Modelled from the spec:` doc comment.  libc functions (`strtol`,
`snprintf`) are embedded following their C-standard semantics.
-/

/-! ## AddressCodec: `ip_addr_pton` / `ip_addr_ntop` -/

/-- The NUL character: C's string terminator. -/
def nulC : Char := Char.ofNat 0

/-- Reading `*p` at the head of a C string: the terminator when the list is empty. -/
def headCh (l : List Char) : Char := l.headD nulC

/-- Decimal digit test, as used by `strtol` in base 10. -/
def isDig (c : Char) : Bool := 48 ≤ c.toNat && c.toNat ≤ 57

/-- C locale `isspace`: space, \t, \n, \v, \f, \r. -/
def isCSpace (c : Char) : Bool := c.toNat = 32 || (9 ≤ c.toNat && c.toNat ≤ 13)

/-- Value of a (already validated) decimal digit string, most significant first. -/
def digitsVal (l : List Char) : Nat := l.foldl (fun a c => 10 * a + (c.toNat - 48)) 0

def LONG_MAX : Int := 9223372036854775807

def LONG_MIN : Int := -9223372036854775808

/-- Result of one `strtol(sp, &ep, 10)` call: the returned `long`, the
suffix of the input starting at `ep`, and whether `ep` moved past `sp`
(`progressed = false` models `ep == sp`, i.e. no conversion). -/
structure StrtolOut where
  val : Int
  rest : List Char
  progressed : Bool
  deriving DecidableEq

/-- `strtol(sp, &ep, 10)` following the C standard: skip `isspace`
characters, accept one optional sign, consume the maximal run of decimal
digits; with no digits, return 0 and leave `ep = sp`; on overflow clamp
to `LONG_MAX` / `LONG_MIN`. -/
def strtolM (sp : List Char) : StrtolOut :=
  let t := sp.dropWhile isCSpace
  let neg : Bool := headCh t == '-'
  let t2 := if headCh t == '+' || headCh t == '-' then t.drop 1 else t
  let ds := t2.takeWhile isDig
  if ds.isEmpty then ⟨0, sp, false⟩
  else
    let v : Int := if neg then -(digitsVal ds : Int) else (digitsVal ds : Int)
    let vc := if v < LONG_MIN then LONG_MIN else if LONG_MAX < v then LONG_MAX else v
    ⟨vc, t2.drop ds.length, true⟩

/-- One iteration of the `for (idx = 0; idx < 4; idx++)` loop of
`ip_addr_pton` (src/ip.c:37-54): run `strtol`, check the range
`[0,255]`, check `ep != sp`, check the separator (`.` after the first
three segments, end of string after the fourth), then store the octet
into `n` and step past the separator.  `Sum.inl` is the early
`return -1` (carrying the output buffer as modified so far). -/
def ptonStep (idx : Nat) (sp : List Char) (n : List Nat) : Sum (List Nat) (List Char × List Nat) :=
  let r := strtolM sp
  if r.val < 0 ∨ 255 < r.val then Sum.inl n
  else if ¬ r.progressed then Sum.inl n
  else if (idx = 3 ∧ headCh r.rest ≠ nulC) ∨ (idx ≠ 3 ∧ headCh r.rest ≠ '.') then Sum.inl n
  else Sum.inr (r.rest.drop 1, n.set idx r.val.toNat)

/-- `ip_addr_pton` (src/ip.c:31-56): parse a dotted-decimal address into
the four bytes of `n` (the caller's `ip_addr_t`, whose initial contents
are the second argument).  Returns the C result (0 or -1) together with
the final contents of `n`. -/
def ip_addr_pton (p : List Char) (n : List Nat) : Int × List Nat :=
  match ptonStep 0 p n with
  | .inl n' => (-1, n')
  | .inr (sp1, n1) =>
    match ptonStep 1 sp1 n1 with
    | .inl n' => (-1, n')
    | .inr (sp2, n2) =>
      match ptonStep 2 sp2 n2 with
      | .inl n' => (-1, n')
      | .inr (sp3, n3) =>
        match ptonStep 3 sp3 n3 with
        | .inl n' => (-1, n')
        | .inr (_, n4) => (0, n4)

/-- The character of one decimal digit. -/
def digitC (d : Nat) : Char := Char.ofNat (48 + d)

/-- Decimal rendering of one octet, as `snprintf`'s `%d` renders a
`uint8_t` value: one to three digits, no padding, `0` renders as `"0"`. -/
def renderNat (b : Nat) : List Char :=
  if b < 10 then [digitC b]
  else if b < 100 then [digitC (b / 10), digitC (b % 10)]
  else [digitC (b / 100), digitC (b / 10 % 10), digitC (b % 10)]

/-- The uint8 at byte offset `i` of a little-endian stored `uint32` value. -/
def byteAt (a : Nat) (i : Nat) : Nat := a / 256 ^ i % 256

/-- The full dotted-decimal rendering `"u8[0].u8[1].u8[2].u8[3]"` of an
address, reading the stored bytes in order as src/ip.c:62 does. -/
def renderAddr (a : Nat) : List Char :=
  renderNat (byteAt a 0) ++ '.' :: renderNat (byteAt a 1) ++ '.' :: renderNat (byteAt a 2) ++ '.' :: renderNat (byteAt a 3)

/-- `ip_addr_ntop` (src/ip.c:57-64): `snprintf(p, size, "%d.%d.%d.%d", ...)`
writes at most `size - 1` characters plus a NUL terminator (nothing at all
when `size = 0`) and the function returns the caller's buffer; no error is
ever signalled.  The model returns the bytes written into the buffer. -/
def ip_addr_ntop (a : Nat) (size : Nat) : List Char :=
  if size = 0 then [] else (renderAddr a).take (size - 1) ++ [nulC]

/-- The C string stored in a buffer: the characters before the first NUL. -/
def cstrOf (l : List Char) : List Char := l.takeWhile (fun c => c != nulC)

/-- The `uint32` value of a 4-byte little-endian buffer, as the host
reloads an `ip_addr_t` that `ip_addr_pton` filled byte by byte. -/
def addrOfList (l : List Nat) : Nat :=
  l.getD 0 0 + 256 * l.getD 1 0 + 65536 * l.getD 2 0 + 16777216 * l.getD 3 0

/-! ## The one's-complement checksum (`cksum16`, from `util.c`, not under `src/`) -/

/-- Modelled from the spec: the raw sum of `cksum16`'s accumulation loop,
which adds the buffer's native 16-bit words (little-endian host:
`b[2i] + 256 * b[2i+1]`) and, for an odd byte count, the final lone byte.
The alternating-coefficient recursion yields exactly that total: bytes at
even offsets weigh `c = 1`, bytes at odd offsets weigh `257 - c = 256`. -/
def sumWords (c : Nat) : List Nat → Nat
  | [] => 0
  | b :: rest => c * b + sumWords (257 - c) rest

/-- Modelled from the spec: the end-around-carry loop
`while (sum >> 16) sum = (sum & 0xffff) + (sum >> 16);` of `cksum16`.
Each pass strictly decreases a sum that still has high bits, so a fuel of
`s` itself always reaches the fixpoint. -/
def foldCarryAux : Nat → Nat → Nat
  | 0, s => s
  | fuel + 1, s => if s < 65536 then s else foldCarryAux fuel (s % 65536 + s / 65536)

def foldCarry (s : Nat) : Nat := foldCarryAux s s

/-- Modelled from the spec: `cksum16(addr, count, 0)` from `util.c` (declared
in `util.h`, not under `src/`): one's-complement 16-bit checksum — sum the
16-bit words with end-around carry, then invert the low 16 bits. -/
def cksum16 (bytes : List Nat) : Nat := 65535 - foldCarry (sumWords 1 bytes)

/-! ## Interface model (`ip_iface_alloc` / `ip_iface_register` / `ip_iface_select`) -/

/-- `struct ip_iface` (declared in `ip.h`): one IPv4 binding — unicast
address, netmask and derived broadcast, each a 32-bit value.  The
intrusive `next` pointers become explicit lists below. -/
structure IpIface where
  unicast : Nat
  netmask : Nat
  broadcast : Nat
  deriving DecidableEq

/-- `struct net_device` as far as this subsystem sees it: its list of
bound IP interfaces (`dev->ifaces`, head = most recently prepended). -/
structure NetDevice where
  ifaces : List IpIface
  deriving DecidableEq

/-- Modelled from the spec: `net_device_add_iface` (from `net.c`, not under
`src/`) — the device's acceptance check, which rejects when the device
already has an interface of this family bound.  `true` = accept. -/
def net_device_add_iface (dev : NetDevice) : Bool := dev.ifaces.isEmpty

/-- Modelled from the spec: `net_device_get_iface(dev, NET_IFACE_FAMILY_IP)`
(from `net.c`, not under `src/`) — resolve the device's bound IP
interface, the first entry of its interface list. -/
def net_device_get_iface (dev : NetDevice) : Option IpIface := dev.ifaces.head?

def IP_ADDR_ANY : Nat := 0x00000000

def IP_ADDR_BROADCAST : Nat := 0xffffffff

/-- `ip_iface_alloc` (src/ip.c:96-130): parse both texts with
`ip_addr_pton` (each into a fresh local `ip_addr_t`), freeing the
partial interface and returning NULL (`none`) on either failure;
on success set `broadcast = (uni & mask) | (~mask)` (32-bit ops). -/
def ip_iface_alloc (unicast netmask : List Char) : Option IpIface :=
  let r1 := ip_addr_pton unicast [0, 0, 0, 0]
  if r1.1 = -1 then none
  else
    let uni := addrOfList r1.2
    let r2 := ip_addr_pton netmask [0, 0, 0, 0]
    if r2.1 = -1 then none
    else
      let mask := addrOfList r2.2
      some ⟨uni, mask, Nat.lor (Nat.land uni mask) (Nat.xor mask 0xffffffff)⟩

/-- `ip_iface_register` (src/ip.c:132-152): ask the device to accept the
interface, then prepend it to `dev->ifaces`.  The process-wide registry
list (`static struct ip_iface *ifaces`, src/ip.c:29) is threaded through
explicitly; the source never writes to it, so it is returned unchanged.
`none` is the `return -1` path. -/
def ip_iface_register (dev : NetDevice) (iface : IpIface) (registry : List IpIface) :
    Option (NetDevice × List IpIface) :=
  if net_device_add_iface dev then some (⟨iface :: dev.ifaces⟩, registry) else none

/-- `ip_iface_select` (src/ip.c:154-167): linear scan of the global
registry list for the first entry whose unicast or broadcast address
equals `addr`; `none` is the NULL ("not found") result. -/
def ip_iface_select (registry : List IpIface) (addr : Nat) : Option IpIface :=
  registry.find? (fun e => e.unicast == addr || e.broadcast == addr)

/-! ## The ingress handler `ip_input` -/

/-- Modelled from the spec: `IP_HDR_SIZE_MIN` from `ip.h` (not under
`src/`), the 20-byte minimum header size. -/
def IP_HDR_SIZE_MIN : Nat := 20

/-- Modelled from the spec: `IP_VERSION_IPV4` from `ip.h` (not under `src/`). -/
def IP_VERSION_IPV4 : Nat := 4

/-- `(hdr->vhl & 0xf0) >> 4`: the version nibble of the first byte. -/
def ipVersion (data : List Nat) : Nat := Nat.land (data.getD 0 0) 0xf0 / 16

/-- Modelled from the spec: `ntoh16` (from `util.c`, not under `src/`)
applied to the 16-bit field at byte offset `i`, i.e. the network-order
(big-endian) value of the two wire bytes. -/
def decode16 (data : List Nat) (i : Nat) : Nat := 256 * data.getD i 0 + data.getD (i + 1) 0

/-- `ntoh16(hdr->total)`: the declared total length (bytes 2-3). -/
def ipTotal (data : List Nat) : Nat := decode16 data 2

/-- `ntoh16(hdr->offset)`: the flags / fragment-offset field (bytes 6-7). -/
def ipOffsetField (data : List Nat) : Nat := decode16 data 6

/-- `hdr->dst`: the 32-bit destination address (bytes 16-19), as the host
loads it — little-endian assembly, matching `addrOfList`. -/
def ipDst (data : List Nat) : Nat :=
  data.getD 16 0 + 256 * data.getD 17 0 + 65536 * data.getD 18 0 + 16777216 * data.getD 19 0

/-- Outcome of one `ip_input` call.  The C function returns `void`; the
constructors record which exit was taken: every constructor except
`accepted` is a drop, and every drop except `silentDrop` is accompanied
by a diagnostic (`errorf`) line only — no error ever reaches the caller. -/
inductive IpVerdict where
  | tooShort
  | badVersion
  | hdrShort
  | badTotal
  | badChecksum
  | fragment
  | noIface
  | silentDrop
  | accepted
  deriving DecidableEq

/-- `ip_input` (src/ip.c:171-235), the ingress handler, check for check:
`len < IP_HDR_SIZE_MIN`; version nibble `!= 4`;
`hlen = sizeof(*data)` — the source takes `sizeof` of a `uint8_t`
element, so `hlen` is 1, not the IHL decoded from the low nibble —
then `len < hlen`; `len < ntoh16(hdr->total)`;
`cksum16((uint16_t *)hdr, len, 0) != 0` — the extent passed is `len`,
the received buffer length; more-fragments flag or nonzero 13-bit
offset; no bound interface; destination matching none of unicast,
limited broadcast, interface broadcast (silent drop). -/
def ip_input (data : List Nat) (dev : NetDevice) : IpVerdict :=
  if data.length < IP_HDR_SIZE_MIN then .tooShort
  else if ipVersion data ≠ IP_VERSION_IPV4 then .badVersion
  else if data.length < 1 then .hdrShort
  else if data.length < ipTotal data then .badTotal
  else if cksum16 data ≠ 0 then .badChecksum
  else if Nat.land (ipOffsetField data) 0x2000 ≠ 0 ∨ Nat.land (ipOffsetField data) 0x1fff ≠ 0 then .fragment
  else
    match net_device_get_iface dev with
    | none => .noIface
    | some iface =>
      if ipDst data ≠ iface.unicast ∧ ipDst data ≠ IP_ADDR_BROADCAST ∧ ipDst data ≠ iface.broadcast then
        .silentDrop
      else .accepted

/-- A byte buffer whose entries are `uint8_t` values. -/
def ValidBytes (data : List Nat) : Prop := ∀ b ∈ data, b < 256

/-- Flip bit `k` of the byte at offset `i`. -/
def flipBit (data : List Nat) (i k : Nat) : List Nat :=
  data.set i (Nat.xor (data.getD i 0) (2 ^ k))

/-! ## Parser lemmas -/

lemma isDig_not_space {c : Char} (h : isDig c = true) : isCSpace c = false := by
  simp only [isDig, Bool.and_eq_true, decide_eq_true_eq] at h
  simp only [isCSpace, Bool.or_eq_false_iff, Bool.and_eq_false_iff, decide_eq_false_iff_not]
  omega

lemma takeWhile_all_append {α : Type} (p : α → Bool) (ds rest : List α)
    (h2 : ∀ c ∈ ds, p c = true) (h3 : ∀ c, rest.head? = some c → p c = false) :
    (ds ++ rest).takeWhile p = ds := by
  induction ds with
  | nil =>
    cases rest with
    | nil => rfl
    | cons r t => simp [List.takeWhile_cons, h3 r rfl]
  | cons d t ih =>
    simp only [List.cons_append, List.takeWhile_cons, h2 d (by simp), if_true]
    exact congrArg (List.cons d) (ih (fun c hc => h2 c (by simp [hc])))

/-- `strtol` on a digit string followed by a non-digit remainder: consume
exactly the digits, no clamping below 256. -/
lemma strtol_digits (ds rest : List Char) (h1 : ds ≠ [])
    (h2 : ∀ c ∈ ds, isDig c = true) (h3 : ∀ c, rest.head? = some c → isDig c = false)
    (h4 : digitsVal ds ≤ 255) :
    strtolM (ds ++ rest) = ⟨(digitsVal ds : Int), rest, true⟩ := by
  obtain ⟨d, t, rfl⟩ : ∃ d t, ds = d :: t := by
    cases ds with
    | nil => exact absurd rfl h1
    | cons d t => exact ⟨d, t, rfl⟩
  have hd : isDig d = true := h2 d (by simp)
  have hplus : d ≠ '+' := by intro h; subst h; simp [isDig] at hd
  have hminus : d ≠ '-' := by intro h; subst h; simp [isDig] at hd
  have hplusb : (d == '+') = false := by simp [hplus]
  have hnegb : (d == '-') = false := by simp [hminus]
  have hds : List.dropWhile isCSpace (d :: (t ++ rest)) = d :: (t ++ rest) := by
    simp [List.dropWhile_cons, isDig_not_space hd]
  have htw : List.takeWhile isDig (d :: (t ++ rest)) = d :: t := by
    have h := takeWhile_all_append isDig (d :: t) rest h2 h3
    rwa [List.cons_append] at h
  have hdr : (d :: (t ++ rest)).drop (d :: t).length = rest := by
    have h := List.drop_left (d :: t) rest
    rwa [List.cons_append] at h
  have hv1 : ¬ ((digitsVal (d :: t) : Int) < LONG_MIN) := by
    unfold LONG_MIN
    omega
  have hv2 : ¬ (LONG_MAX < (digitsVal (d :: t) : Int)) := by
    unfold LONG_MAX
    omega
  simp only [strtolM, List.cons_append, hds, headCh, List.headD_cons, hplusb, hnegb,
    Bool.or_false, Bool.false_or, Bool.or_self, Bool.false_eq_true, if_false, htw,
    List.isEmpty_cons, hdr, hv1, hv2]

/-- One successful middle-segment iteration of `ip_addr_pton` on a
rendered octet followed by `'.'`. -/
lemma ptonStep_render_mid (idx b : Nat) (hb : b < 256) (hidx : idx ≠ 3)
    (hds : ∀ c ∈ renderNat b, isDig c = true) (hne : renderNat b ≠ [])
    (hval : digitsVal (renderNat b) = b) (tail : List Char) (n : List Nat) :
    ptonStep idx (renderNat b ++ '.' :: tail) n = Sum.inr (tail, n.set idx b) := by
  have hstep := strtol_digits (renderNat b) ('.' :: tail) hne hds
    (by intro c hc; simp at hc; subst hc; decide) (by omega)
  simp only [ptonStep, hstep]
  rw [if_neg (by omega), if_neg (by simp)]
  rw [if_neg ?hcond]
  case hcond =>
    rintro (⟨h3, -⟩ | ⟨-, hdot⟩)
    · exact hidx h3
    · exact hdot (by simp [headCh])
  simp [hval]

/-- The last-segment iteration of `ip_addr_pton` on a rendered octet at
the end of the string. -/
lemma ptonStep_render_last (b : Nat) (hb : b < 256)
    (hds : ∀ c ∈ renderNat b, isDig c = true) (hne : renderNat b ≠ [])
    (hval : digitsVal (renderNat b) = b) (n : List Nat) :
    ptonStep 3 (renderNat b) n = Sum.inr ([], n.set 3 b) := by
  have hstep := strtol_digits (renderNat b) [] hne hds (by intro c hc; simp at hc) (by omega)
  rw [List.append_nil] at hstep
  simp only [ptonStep, hstep]
  rw [if_neg (by omega), if_neg (by simp)]
  rw [if_neg ?hcond]
  case hcond =>
    rintro (⟨-, hnul⟩ | ⟨h3, -⟩)
    · exact hnul (by simp [headCh])
    · exact h3 rfl
  simp [hval]

set_option maxRecDepth 8192 in
/-- Facts about the octet renderer, checked for every `uint8_t` value:
nonempty, all digits, at most three characters, value round-trips. -/
lemma renderNat_facts : ∀ b < 256, renderNat b ≠ [] ∧ digitsVal (renderNat b) = b ∧
    (renderNat b).length ≤ 3 ∧ ∀ c ∈ renderNat b, isDig c = true := by decide

lemma byteAt_lt (a i : Nat) : byteAt a i < 256 := Nat.mod_lt _ (by norm_num)

lemma dig_ne_nul {c : Char} (h : isDig c = true) : (c != nulC) = true := by
  simp only [bne_iff_ne, ne_eq]
  intro he
  subst he
  rw [show isDig nulC = false by decide] at h
  exact Bool.false_ne_true h

lemma renderAddr_no_nul (a : Nat) : ∀ c ∈ renderAddr a, (c != nulC) = true := by
  intro c hc
  simp only [renderAddr, List.mem_append, List.mem_cons] at hc
  have hfacts := fun i => (renderNat_facts (byteAt a i) (byteAt_lt a i)).2.2.2
  have hcases : c ∈ renderNat (byteAt a 0) ∨ c ∈ renderNat (byteAt a 1) ∨
      c ∈ renderNat (byteAt a 2) ∨ c ∈ renderNat (byteAt a 3) ∨ c = '.' := by tauto
  rcases hcases with h | h | h | h | rfl
  · exact dig_ne_nul (hfacts 0 c h)
  · exact dig_ne_nul (hfacts 1 c h)
  · exact dig_ne_nul (hfacts 2 c h)
  · exact dig_ne_nul (hfacts 3 c h)
  · decide

lemma renderAddr_length (a : Nat) : (renderAddr a).length ≤ 15 := by
  have h := fun i => (renderNat_facts (byteAt a i) (byteAt_lt a i)).2.2.1
  simp only [renderAddr, List.length_append, List.length_cons]
  have h0 := h 0
  have h1 := h 1
  have h2 := h 2
  have h3 := h 3
  omega

/-- The written buffer truncates the rendering to `size - 1` characters. -/
lemma cstrOf_ntop (a size : Nat) (hs : 1 ≤ size) :
    cstrOf (ip_addr_ntop a size) = (renderAddr a).take (size - 1) := by
  unfold ip_addr_ntop cstrOf
  rw [if_neg (by omega)]
  exact takeWhile_all_append _ _ _
    (fun c hc => renderAddr_no_nul a c (List.take_subset _ _ hc))
    (by intro c hc; simp at hc; subst hc; simp)

/-- With a buffer of at least 16 bytes nothing is truncated. -/
lemma cstrOf_ntop_full (a size : Nat) (hs : 16 ≤ size) :
    cstrOf (ip_addr_ntop a size) = renderAddr a := by
  rw [cstrOf_ntop a size (by omega), List.take_of_length_le]
  have := renderAddr_length a
  omega

/-- Parsing a rendered address recovers the four stored bytes exactly. -/
lemma pton_renderAddr (a : Nat) (n0 : List Nat) (hn : n0.length = 4) :
    ip_addr_pton (renderAddr a) n0 = (0, [byteAt a 0, byteAt a 1, byteAt a 2, byteAt a 3]) := by
  obtain ⟨x0, x1, x2, x3, rfl⟩ : ∃ x0 x1 x2 x3, n0 = [x0, x1, x2, x3] := by
    match n0, hn with
    | [x0, x1, x2, x3], _ => exact ⟨x0, x1, x2, x3, rfl⟩
  have hf := fun i => renderNat_facts (byteAt a i) (byteAt_lt a i)
  unfold ip_addr_pton renderAddr
  simp only [List.cons_append, List.append_assoc]
  rw [ptonStep_render_mid 0 _ (byteAt_lt a 0) (by omega) (hf 0).2.2.2 (hf 0).1 (hf 0).2.1]
  simp only
  rw [ptonStep_render_mid 1 _ (byteAt_lt a 1) (by omega) (hf 1).2.2.2 (hf 1).1 (hf 1).2.1]
  simp only
  rw [ptonStep_render_mid 2 _ (byteAt_lt a 2) (by omega) (hf 2).2.2.2 (hf 2).1 (hf 2).2.1]
  simp only
  rw [ptonStep_render_last _ (byteAt_lt a 3) (hf 3).2.2.2 (hf 3).1 (hf 3).2.1]
  simp [List.set]

/-! ## Checksum lemmas -/

lemma foldCarryAux_lt : ∀ fuel s : Nat, s ≤ fuel → foldCarryAux fuel s < 65536 := by
  intro fuel
  induction fuel with
  | zero =>
    intro s hs
    have : s = 0 := by omega
    subst this
    simp [foldCarryAux]
  | succ n ih =>
    intro s hs
    simp only [foldCarryAux]
    split
    · assumption
    · rename_i hge
      push_neg at hge
      exact ih _ (by omega)

lemma foldCarryAux_mod : ∀ fuel s : Nat, foldCarryAux fuel s % 65535 = s % 65535 := by
  intro fuel
  induction fuel with
  | zero => intro s; rfl
  | succ n ih =>
    intro s
    simp only [foldCarryAux]
    split
    · rfl
    · rw [ih]
      have h : s = (s % 65536 + s / 65536) + 65535 * (s / 65536) := by omega
      conv_rhs => rw [h]
      rw [Nat.add_mul_mod_self_left]

lemma foldCarryAux_ne_zero : ∀ fuel s : Nat, s ≠ 0 → foldCarryAux fuel s ≠ 0 := by
  intro fuel
  induction fuel with
  | zero => intro s h; exact h
  | succ n ih =>
    intro s h
    simp only [foldCarryAux]
    split
    · exact h
    · rename_i hge
      push_neg at hge
      exact ih _ (by omega)

/-- The recomputed checksum is zero exactly when the raw word sum is a
nonzero multiple of `0xffff` (the one's-complement representation of zero). -/
lemma cksum16_eq_zero_iff (bytes : List Nat) :
    cksum16 bytes = 0 ↔ sumWords 1 bytes % 65535 = 0 ∧ sumWords 1 bytes ≠ 0 := by
  unfold cksum16 foldCarry
  have hlt := foldCarryAux_lt (sumWords 1 bytes) (sumWords 1 bytes) le_rfl
  have hmod := foldCarryAux_mod (sumWords 1 bytes) (sumWords 1 bytes)
  constructor
  · intro h
    have hF : foldCarryAux (sumWords 1 bytes) (sumWords 1 bytes) = 65535 := by omega
    constructor
    · omega
    · intro h0
      rw [h0] at hF
      simp [foldCarryAux] at hF
  · rintro ⟨hm, hnz⟩
    have hne := foldCarryAux_ne_zero (sumWords 1 bytes) (sumWords 1 bytes) hnz
    omega

/-- Coefficient with which the byte at offset `i` enters the word sum
started with coefficient `c`: `c` at even offsets, `257 - c` at odd ones. -/
def coeffAt (c i : Nat) : Nat := if i % 2 = 0 then c else 257 - c

lemma sumWords_set : ∀ (l : List Nat) (c i x : Nat), c ≤ 257 → i < l.length →
    sumWords c (l.set i x) + coeffAt c i * l.getD i 0 = sumWords c l + coeffAt c i * x := by
  intro l
  induction l with
  | nil => intro c i x _ hi; simp at hi
  | cons b rest ih =>
    intro c i x hc hi
    cases i with
    | zero =>
      simp [sumWords, coeffAt]
      ring
    | succ j =>
      have hco : coeffAt c (j + 1) = coeffAt (257 - c) j := by
        unfold coeffAt
        rcases Nat.even_or_odd j with he | ho
        · have h1 : j % 2 = 0 := Nat.even_iff.mp he
          have h2 : (j + 1) % 2 = 1 := by omega
          simp [h1, h2]
        · have h1 : j % 2 = 1 := Nat.odd_iff.mp ho
          have h2 : (j + 1) % 2 = 0 := by omega
          simp [h1, h2]
          omega
      simp only [List.set_cons_succ, sumWords, List.getD_cons_succ, hco]
      have := ih (257 - c) j x (by omega) (by simpa using hi)
      omega

set_option maxRecDepth 4096 in
/-- XOR with a single bit moves a byte by exactly `2 ^ k`, up or down. -/
lemma xorPow2_cases : ∀ b < 256, ∀ k < 8,
    Nat.xor b (2 ^ k) + 2 ^ k = b ∨ Nat.xor b (2 ^ k) = b + 2 ^ k := by decide

lemma pow2_le_128 : ∀ k < 8, 2 ^ k ≤ 128 := by decide

/-- Flipping one bit of one in-range byte moves the raw word sum by a
nonzero amount smaller than `0xffff`. -/
lemma sumWords_flip (data : List Nat) (i k : Nat)
    (hv : ValidBytes data) (hi : i < data.length) (hk : k < 8) :
    ∃ d, 1 ≤ d ∧ d ≤ 32768 ∧
      (sumWords 1 (flipBit data i k) = sumWords 1 data + d ∨
       sumWords 1 data = sumWords 1 (flipBit data i k) + d) := by
  have hb : data.getD i 0 < 256 := by
    have hmem : data.getD i 0 ∈ data := by
      rw [List.getD_eq_getElem data 0 hi]
      exact List.getElem_mem hi
    exact hv _ hmem
  have hset := sumWords_set data 1 i (Nat.xor (data.getD i 0) (2 ^ k)) (by omega) hi
  have hcoeff : coeffAt 1 i = 1 ∨ coeffAt 1 i = 256 := by
    unfold coeffAt; split <;> simp
  have hpk : 2 ^ k ≤ 128 := pow2_le_128 k hk
  have hpk1 : 1 ≤ 2 ^ k := Nat.one_le_two_pow
  refine ⟨coeffAt 1 i * 2 ^ k, ?_, ?_, ?_⟩
  · rcases hcoeff with h | h <;> rw [h] <;> omega
  · rcases hcoeff with h | h <;> rw [h] <;> omega
  · unfold flipBit at *
    rcases xorPow2_cases (data.getD i 0) hb k hk with hx | hx
    · right
      -- the flipped byte is smaller: the sum went down by coeff * 2 ^ k
      have : coeffAt 1 i * Nat.xor (data.getD i 0) (2 ^ k) + coeffAt 1 i * 2 ^ k
           = coeffAt 1 i * data.getD i 0 := by
        rw [← Nat.mul_add, hx]
      omega
    · left
      have : coeffAt 1 i * Nat.xor (data.getD i 0) (2 ^ k)
           = coeffAt 1 i * data.getD i 0 + coeffAt 1 i * 2 ^ k := by
        rw [← Nat.mul_add, hx]
      omega

/-! ## `ip_input` branch lemmas -/

/-- Inversion: an accepted packet passed every check on the way. -/
lemma ip_input_accepted_inv {data : List Nat} {dev : NetDevice}
    (h : ip_input data dev = .accepted) :
    IP_HDR_SIZE_MIN ≤ data.length ∧ ipVersion data = IP_VERSION_IPV4 ∧
    ipTotal data ≤ data.length ∧ cksum16 data = 0 ∧
    Nat.land (ipOffsetField data) 0x2000 = 0 ∧ Nat.land (ipOffsetField data) 0x1fff = 0 := by
  unfold ip_input at h
  split_ifs at h with h1 h2 h3 h4 h5 h6
  all_goals try simp at h
  push_neg at h6
  refine ⟨by omega, by push_neg at h2; exact h2, by omega, by push_neg at h5; exact h5, h6.1, h6.2⟩

/-- After all validation checks succeed, `ip_input` is exactly the
interface resolution and destination match of src/ip.c:223-235. -/
lemma ip_input_eq_of_valid {data : List Nat} (dev : NetDevice)
    (h1 : IP_HDR_SIZE_MIN ≤ data.length) (h2 : ipVersion data = IP_VERSION_IPV4)
    (h3 : ipTotal data ≤ data.length) (h4 : cksum16 data = 0)
    (h5 : Nat.land (ipOffsetField data) 0x2000 = 0)
    (h6 : Nat.land (ipOffsetField data) 0x1fff = 0) :
    ip_input data dev =
      (match net_device_get_iface dev with
       | none => .noIface
       | some iface =>
         if ipDst data ≠ iface.unicast ∧ ipDst data ≠ IP_ADDR_BROADCAST ∧ ipDst data ≠ iface.broadcast
         then .silentDrop else .accepted) := by
  have h1' : 20 ≤ data.length := h1
  unfold ip_input
  rw [if_neg (by omega), if_neg (by simp [h2]), if_neg (by omega), if_neg (by omega),
      if_neg (by simp [h4]), if_neg (by simp [h5, h6])]

/-- After the three length/version checks succeed, the verdict is one of
the later five outcomes: the packet is past the length checks. -/
lemma ip_input_valid_verdicts {data : List Nat} (dev : NetDevice)
    (h1 : IP_HDR_SIZE_MIN ≤ data.length) (h2 : ipVersion data = IP_VERSION_IPV4)
    (h3 : ipTotal data ≤ data.length) :
    ip_input data dev = .badChecksum ∨ ip_input data dev = .fragment ∨
    ip_input data dev = .noIface ∨ ip_input data dev = .silentDrop ∨
    ip_input data dev = .accepted := by
  have h1' : 20 ≤ data.length := h1
  unfold ip_input
  rw [if_neg (by omega), if_neg (by simp [h2]), if_neg (by omega), if_neg (by omega)]
  split
  · left; rfl
  · split
    · right; left; rfl
    · cases net_device_get_iface dev with
      | none => right; right; left; rfl
      | some iface =>
        simp only
        split
        · right; right; right; left; rfl
        · right; right; right; right; rfl

/-! ## Further `ip_input` branch lemmas -/

/-- With a valid checksum the checksum branch is never the verdict. -/
lemma ip_input_ne_badChecksum {data : List Nat} (dev : NetDevice)
    (h1 : IP_HDR_SIZE_MIN ≤ data.length) (h2 : ipVersion data = IP_VERSION_IPV4)
    (h3 : ipTotal data ≤ data.length) (hc : cksum16 data = 0) :
    ip_input data dev ≠ .badChecksum := by
  have h1' : 20 ≤ data.length := h1
  unfold ip_input
  rw [if_neg (by omega), if_neg (by simp [h2]), if_neg (by omega), if_neg (by omega),
      if_neg (by simp [hc])]
  split
  · simp
  · cases hgi : net_device_get_iface dev with
    | none => simp [hgi]
    | some iface =>
      simp only [hgi]
      split <;> simp

/-- With an invalid checksum the packet is dropped at the checksum check. -/
lemma ip_input_badChecksum_of {data : List Nat} (dev : NetDevice)
    (h1 : IP_HDR_SIZE_MIN ≤ data.length) (h2 : ipVersion data = IP_VERSION_IPV4)
    (h3 : ipTotal data ≤ data.length) (hc : cksum16 data ≠ 0) :
    ip_input data dev = .badChecksum := by
  have h1' : 20 ≤ data.length := h1
  unfold ip_input
  rw [if_neg (by omega), if_neg (by simp [h2]), if_neg (by omega), if_neg (by omega),
      if_pos hc]

/-! ## Concrete interfaces, devices and packets used in the closed theorems -/

/-- Interface 192.0.2.1 / 255.255.255.0, broadcast 192.0.2.255 (addresses
stored as the host reloads the 4 network-order bytes). -/
def ifc0 : IpIface := ⟨16908480, 16777215, 4278321344⟩

def devOne : NetDevice := ⟨[ifc0]⟩

def devNone : NetDevice := ⟨[]⟩

/-- A correct 20-byte header: version 4, IHL 5, total 20, TTL 64,
protocol 1, src 0.0.0.0, dst 192.0.2.1, checksum field 184,232. -/
def packetOk : List Nat := [0x45, 0, 0, 20, 0, 0, 0, 0, 64, 1, 184, 232, 0, 0, 0, 0, 192, 0, 2, 1]

/-- Like `packetOk` but the low nibble of the first byte declares an IHL
of 15 words (a 60-byte header) inside a 20-byte buffer; checksum fixed up. -/
def packetIhl : List Nat := [0x4f, 0, 0, 20, 0, 0, 0, 0, 64, 1, 174, 232, 0, 0, 0, 0, 192, 0, 2, 1]

/-- A 22-byte buffer whose header declares total length 20 and checksums
to zero over those 20 bytes; the two trailing padding bytes are 1, 0. -/
def packetPad : List Nat := [0x45, 0, 0, 20, 0, 0, 0, 0, 64, 1, 122, 234, 0, 0, 0, 0, 0, 0, 0, 0, 1, 0]

/-- Correct checksum but fragment-offset field 1. -/
def packetFrag : List Nat := [0x45, 0, 0, 20, 0, 0, 0, 1, 64, 1, 184, 231, 0, 0, 0, 0, 192, 0, 2, 1]

/-- Correct checksum but destination 192.0.2.7, owned by no interface. -/
def packetMiss : List Nat := [0x45, 0, 0, 20, 0, 0, 0, 0, 64, 1, 184, 226, 0, 0, 0, 0, 192, 0, 2, 7]

/-- A 19-byte buffer. -/
def packetShort : List Nat := [0, 0, 0, 0, 0, 0, 0, 0, 0, 0, 0, 0, 0, 0, 0, 0, 0, 0, 0]

/-- A 20-byte buffer whose header declares total length 21. -/
def packetBadTotal : List Nat := [0x45, 0, 0, 21, 0, 0, 0, 0, 64, 1, 0, 0, 0, 0, 0, 0, 0, 0, 0, 0]

/-- Parse inputs used by the allocation witness. -/
def uniText0 : List Char := "192.168.1.10".toList

def maskText0 : List Char := "255.255.255.0".toList

/-- The interface `ip_iface_alloc` builds from `uniText0` / `maskText0`:
192.168.1.10 / 255.255.255.0, broadcast 192.168.1.255. -/
def ifcW : IpIface := ⟨167880896, 16777215, 4278298816⟩

/-! ## Claims -/

/-- C1: the claim states that `ip_input` decodes the header length from
the low nibble of the first byte, scales it by 4 and rejects exactly when
that effective header size exceeds `len`.  The code instead computes
`hlen = sizeof(*data)`, which is 1 because `data` has element type
`uint8_t`, so the check `len < hlen` never fires: this packet's low
nibble declares a 60-byte header inside a 20-byte buffer, `ip_input`
accepts it, contradicting the claimed rejection. -/
theorem ip_C1_header_length_bug :
    ip_input packetIhl devOne = .accepted ∧
    4 * Nat.land (packetIhl.getD 0 0) 0x0f = 60 ∧ packetIhl.length = 20 := by decide

/-- C2 (amended): the checksum step passes exactly when the
one's-complement sum computed over the received buffer length `len` — not
the declared total length — is zero, and flipping any single bit of any
byte inside that extent on an otherwise-accepted packet causes rejection. -/
theorem ip_C2_checksum_extent (data : List Nat) (dev : NetDevice) :
    (IP_HDR_SIZE_MIN ≤ data.length → ipVersion data = IP_VERSION_IPV4 →
      ipTotal data ≤ data.length →
      (ip_input data dev = .badChecksum ↔ cksum16 data ≠ 0)) ∧
    (ValidBytes data → ∀ i k, i < data.length → k < 8 →
      ip_input data dev = .accepted → ip_input (flipBit data i k) dev ≠ .accepted) := by
  constructor
  · intro h1 h2 h3
    constructor
    · intro hip h0
      exact ip_input_ne_badChecksum dev h1 h2 h3 h0 hip
    · intro hc
      exact ip_input_badChecksum_of dev h1 h2 h3 hc
  · intro hv i k hi hk hacc hacc'
    have hc := (ip_input_accepted_inv hacc).2.2.2.1
    have hc' := (ip_input_accepted_inv hacc').2.2.2.1
    rw [cksum16_eq_zero_iff] at hc hc'
    obtain ⟨d, hd1, hd2, hcase⟩ := sumWords_flip data i k hv hi hk
    rcases hcase with h | h <;> omega

/-- C2 counterexample: this packet reaches the checksum step (length,
version and total-length checks pass) and its one's-complement sum over
the declared total length is zero, yet the code drops it with a checksum
mismatch — the code sums over the received buffer length, which here
includes two nonzero padding bytes. -/
theorem ip_C2_counterexample :
    IP_HDR_SIZE_MIN ≤ packetPad.length ∧ ipVersion packetPad = IP_VERSION_IPV4 ∧
    ipTotal packetPad ≤ packetPad.length ∧
    cksum16 (packetPad.take (ipTotal packetPad)) = 0 ∧
    ip_input packetPad devOne = .badChecksum := by decide

/-- C2 witness: the checksum characterisation and the bit-flip rejection
applied at concrete packets. -/
theorem ip_C2_witness :
    (ip_input packetPad devOne = .badChecksum ↔ cksum16 packetPad ≠ 0) ∧
    ip_input (flipBit packetOk 0 1) devOne ≠ .accepted :=
  ⟨(ip_C2_checksum_extent packetPad devOne).1 (by decide) (by decide) (by decide),
   (ip_C2_checksum_extent packetOk devOne).2 (by unfold ValidBytes; decide) 0 1
     (by decide) (by decide) (by decide)⟩

/-- C3: the claim states that a registered interface is added to the
device list and to the registry's global list, and that a subsequent
`ip_iface_select` of its unicast address finds it.  In the code the
global list (`static struct ip_iface *ifaces`) is never written —
registration succeeds, prepends only to `dev->ifaces`, leaves the
registry empty, and the select of the freshly registered unicast address
returns NULL. -/
theorem ip_C3_register_select_bug :
    ip_iface_register devNone ifc0 [] = some (⟨[ifc0]⟩, []) ∧
    ip_iface_select [] ifc0.unicast = none := by decide

/-- C4: for a packet that passed every validation check, the verdict on a
device with a bound interface is `accepted` exactly when the destination
equals the interface unicast, the limited-broadcast constant, or the
interface broadcast; any other destination is dropped silently, and a
device without a bound interface drops with a diagnostic. -/
theorem ip_C4_dst_match (data : List Nat) (dev : NetDevice)
    (h1 : IP_HDR_SIZE_MIN ≤ data.length) (h2 : ipVersion data = IP_VERSION_IPV4)
    (h3 : ipTotal data ≤ data.length) (h4 : cksum16 data = 0)
    (h5 : Nat.land (ipOffsetField data) 0x2000 = 0)
    (h6 : Nat.land (ipOffsetField data) 0x1fff = 0) :
    (net_device_get_iface dev = none → ip_input data dev = .noIface) ∧
    ∀ iface, net_device_get_iface dev = some iface →
      ((ip_input data dev = .accepted ↔
        (ipDst data = iface.unicast ∨ ipDst data = IP_ADDR_BROADCAST ∨
         ipDst data = iface.broadcast)) ∧
       ((ipDst data ≠ iface.unicast ∧ ipDst data ≠ IP_ADDR_BROADCAST ∧
         ipDst data ≠ iface.broadcast) → ip_input data dev = .silentDrop)) := by
  have heq := ip_input_eq_of_valid dev h1 h2 h3 h4 h5 h6
  constructor
  · intro hgi
    rw [heq, hgi]
  · intro iface hgi
    rw [heq, hgi]
    simp only
    refine ⟨?_, fun hd => by rw [if_pos hd]⟩
    by_cases hd : ipDst data ≠ iface.unicast ∧ ipDst data ≠ IP_ADDR_BROADCAST ∧
        ipDst data ≠ iface.broadcast
    · rw [if_pos hd]
      constructor
      · intro h
        exact absurd h (by simp)
      · intro h
        exact absurd h (by tauto)
    · rw [if_neg hd]
      constructor
      · intro _
        tauto
      · intro _
        rfl

/-- C4 witness: the destination match applied at concrete packets — the
unicast destination is accepted, a device without interface drops with a
diagnostic, and a foreign destination is silently dropped. -/
theorem ip_C4_witness :
    ip_input packetOk devOne = .accepted ∧ ip_input packetOk devNone = .noIface ∧
    ip_input packetMiss devOne = .silentDrop :=
  ⟨((ip_C4_dst_match packetOk devOne (by decide) (by decide) (by decide) (by decide)
      (by decide) (by decide)).2 ifc0 (by decide)).1.mpr (by decide),
   (ip_C4_dst_match packetOk devNone (by decide) (by decide) (by decide) (by decide)
      (by decide) (by decide)).1 (by decide),
   ((ip_C4_dst_match packetMiss devOne (by decide) (by decide) (by decide) (by decide)
      (by decide) (by decide)).2 ifc0 (by decide)).2 (by decide)⟩

/-- C5: a buffer shorter than 20 bytes is rejected at the first check,
before any header field is decoded; a declared total length exceeding the
buffer length is rejected (never accepted, and dropped at the total-length
check once length and version pass); and a buffer strictly larger than
the declared total is not rejected by any of the three length checks. -/
theorem ip_C5_length_checks (data : List Nat) (dev : NetDevice) :
    (data.length < IP_HDR_SIZE_MIN → ip_input data dev = .tooShort) ∧
    (data.length < ipTotal data → ip_input data dev ≠ .accepted) ∧
    (IP_HDR_SIZE_MIN ≤ data.length → ipVersion data = IP_VERSION_IPV4 →
      data.length < ipTotal data → ip_input data dev = .badTotal) ∧
    (IP_HDR_SIZE_MIN ≤ data.length → ipVersion data = IP_VERSION_IPV4 →
      ipTotal data < data.length →
      ip_input data dev ≠ .tooShort ∧ ip_input data dev ≠ .hdrShort ∧
      ip_input data dev ≠ .badTotal) := by
  refine ⟨?_, ?_, ?_, ?_⟩
  · intro h
    unfold ip_input
    rw [if_pos h]
  · intro h hacc
    have := (ip_input_accepted_inv hacc).2.2.1
    omega
  · intro h1 h2 h4
    have h1' : 20 ≤ data.length := h1
    unfold ip_input
    rw [if_neg (by omega), if_neg (by simp [h2]), if_neg (by omega), if_pos h4]
  · intro h1 h2 h4
    rcases ip_input_valid_verdicts dev h1 h2 (le_of_lt h4) with h | h | h | h | h <;> simp [h]

/-- C5 witness: a 19-byte buffer is rejected before any decode, and a
header declaring total length 21 in a 20-byte buffer is rejected. -/
theorem ip_C5_witness :
    ip_input packetShort devOne = .tooShort ∧
    ip_input packetBadTotal devOne = .badTotal :=
  ⟨(ip_C5_length_checks packetShort devOne).1 (by decide),
   (ip_C5_length_checks packetBadTotal devOne).2.2.1 (by decide) (by decide) (by decide)⟩

/-- C6: a packet reaching the fragmentation step with the more-fragments
flag set or a nonzero 13-bit offset is dropped there, and a nonzero
fragment offset is never accepted regardless of checksum validity. -/
theorem ip_C6_fragment_checks (data : List Nat) (dev : NetDevice) :
    (IP_HDR_SIZE_MIN ≤ data.length → ipVersion data = IP_VERSION_IPV4 →
      ipTotal data ≤ data.length → cksum16 data = 0 →
      (Nat.land (ipOffsetField data) 0x2000 ≠ 0 ∨ Nat.land (ipOffsetField data) 0x1fff ≠ 0) →
      ip_input data dev = .fragment) ∧
    (Nat.land (ipOffsetField data) 0x1fff ≠ 0 → ip_input data dev ≠ .accepted) := by
  constructor
  · intro h1 h2 h3 h4 h5
    have h1' : 20 ≤ data.length := h1
    unfold ip_input
    rw [if_neg (by omega), if_neg (by simp [h2]), if_neg (by omega), if_neg (by omega),
        if_neg (by simp [h4]), if_pos h5]
  · intro h hacc
    exact h (ip_input_accepted_inv hacc).2.2.2.2.2

/-- C6 witness: a packet with a valid checksum and fragment offset 1 is
dropped at the fragmentation check. -/
theorem ip_C6_witness : ip_input packetFrag devOne = .fragment :=
  (ip_C6_fragment_checks packetFrag devOne).1 (by decide) (by decide) (by decide)
    (by decide) (by decide)

/-- C7: `ip_iface_alloc` returns an error exactly when either text fails
to parse, and every successfully allocated interface satisfies
`broadcast = (unicast & netmask) | (~netmask)`. -/
theorem ip_C7_alloc_invariant (u m : List Char) :
    (∀ i, ip_iface_alloc u m = some i →
      i.broadcast = Nat.lor (Nat.land i.unicast i.netmask) (Nat.xor i.netmask 0xffffffff)) ∧
    (ip_iface_alloc u m = none ↔
      (ip_addr_pton u [0, 0, 0, 0]).1 = -1 ∨ (ip_addr_pton m [0, 0, 0, 0]).1 = -1) := by
  constructor
  · intro i hi
    simp only [ip_iface_alloc] at hi
    split_ifs at hi
    simp only [Option.some.injEq] at hi
    subst hi
    rfl
  · simp only [ip_iface_alloc]
    split_ifs with hA hB
    · simp [hA]
    · simp [hB]
    · simp [hA, hB]

/-- C7 witness: allocating 192.168.1.10 / 255.255.255.0 succeeds and the
resulting broadcast satisfies the invariant (it is 192.168.1.255). -/
theorem ip_C7_witness :
    ip_iface_alloc uniText0 maskText0 = some ifcW ∧
    ifcW.broadcast = Nat.lor (Nat.land ifcW.unicast ifcW.netmask) (Nat.xor ifcW.netmask 0xffffffff) :=
  ⟨by decide, (ip_C7_alloc_invariant uniText0 maskText0).1 ifcW (by decide)⟩

/-- C8 counterexample: the claim states that `ip_addr_pton` errors on any
input whose segments are not digit-only, and that an erroring call leaves
the output unmodified.  `strtol` accepts a leading sign, so `"+1.2.3.4"`
parses successfully; and `"1.2.3"` returns the error only after the first
two octets of the output buffer were already overwritten. -/
theorem ip_C8_counterexample :
    ip_addr_pton "+1.2.3.4".toList [9, 9, 9, 9] = (0, [1, 2, 3, 4]) ∧
    ip_addr_pton "1.2.3".toList [9, 9, 9, 9] = (-1, [1, 2, 9, 9]) := by decide

/-- C8 (amended): `ip_addr_pton` rejects wrong segment counts,
out-of-range values, empty segments and trailing characters — in
particular all six inputs the claim lists, with the shown final output
buffers — but a segment may carry leading whitespace or a single sign
before its digits (`strtol` semantics), and octets of segments parsed
before the failing one remain written into the output. -/
theorem ip_C8_rejections :
    ip_addr_pton "256.1.1.1".toList [9, 9, 9, 9] = (-1, [9, 9, 9, 9]) ∧
    ip_addr_pton "1.2.3".toList [9, 9, 9, 9] = (-1, [1, 2, 9, 9]) ∧
    ip_addr_pton "1.2.3.4.5".toList [9, 9, 9, 9] = (-1, [1, 2, 3, 9]) ∧
    ip_addr_pton "1..2.3".toList [9, 9, 9, 9] = (-1, [1, 9, 9, 9]) ∧
    ip_addr_pton "1.2.3.4x".toList [9, 9, 9, 9] = (-1, [1, 2, 3, 9]) ∧
    ip_addr_pton "".toList [9, 9, 9, 9] = (-1, [9, 9, 9, 9]) ∧
    ip_addr_pton "+1.2.3.4".toList [9, 9, 9, 9] = (0, [1, 2, 3, 4]) ∧
    ip_addr_pton " 1.2.3.4".toList [9, 9, 9, 9] = (0, [1, 2, 3, 4]) ∧
    ip_addr_pton "1.2.3.-0".toList [9, 9, 9, 9] = (0, [1, 2, 3, 0]) := by decide

/-- C9: formatting any 32-bit address into a buffer of at least 16 bytes
and parsing the stored string back succeeds and returns exactly the four
original bytes, whose reassembled value is the original address. -/
theorem ip_C9_roundtrip (a size : Nat) (n0 : List Nat)
    (ha : a < 4294967296) (hs : 16 ≤ size) (hn : n0.length = 4) :
    ip_addr_pton (cstrOf (ip_addr_ntop a size)) n0 =
      (0, [byteAt a 0, byteAt a 1, byteAt a 2, byteAt a 3]) ∧
    addrOfList [byteAt a 0, byteAt a 1, byteAt a 2, byteAt a 3] = a := by
  constructor
  · rw [cstrOf_ntop_full a size hs]
    exact pton_renderAddr a n0 hn
  · show byteAt a 0 + 256 * byteAt a 1 + 65536 * byteAt a 2 + 16777216 * byteAt a 3 = a
    unfold byteAt
    simp only [pow_zero, pow_one, Nat.div_one,
      show (256 : Nat) ^ 2 = 65536 by norm_num,
      show (256 : Nat) ^ 3 = 16777216 by norm_num]
    omega

/-- C9 witness: the round trip applied at address 192.168.1.10 with a
16-byte buffer. -/
theorem ip_C9_witness :
    ip_addr_pton (cstrOf (ip_addr_ntop 167880896 16)) [0, 0, 0, 0] =
      (0, [byteAt 167880896 0, byteAt 167880896 1, byteAt 167880896 2, byteAt 167880896 3]) ∧
    addrOfList [byteAt 167880896 0, byteAt 167880896 1, byteAt 167880896 2, byteAt 167880896 3] =
      167880896 :=
  ip_C9_roundtrip 167880896 16 [0, 0, 0, 0] (by decide) (by decide) (by rfl)

/-- C10: `ip_addr_ntop` never signals an error — for every address and
every size of at least 1 the written buffer is NUL-terminated, holds the
rendering truncated to `size - 1` characters (the whole dotted-decimal
string as soon as the buffer has at least 16 bytes), and its length is
`min size (rendering + terminator)`. -/
theorem ip_C10_ntop_total (a size : Nat) (hs : 1 ≤ size) :
    (ip_addr_ntop a size).getLast? = some nulC ∧
    (ip_addr_ntop a size).length = min size ((renderAddr a).length + 1) ∧
    cstrOf (ip_addr_ntop a size) = (renderAddr a).take (size - 1) ∧
    (16 ≤ size → cstrOf (ip_addr_ntop a size) = renderAddr a) := by
  refine ⟨?_, ?_, cstrOf_ntop a size hs, fun h => cstrOf_ntop_full a size h⟩
  · unfold ip_addr_ntop
    rw [if_neg (by omega)]
    exact List.getLast?_concat _
  · unfold ip_addr_ntop
    rw [if_neg (by omega)]
    rw [List.length_append, List.length_take]
    simp
    omega

/-- C10 witness: a 5-byte buffer truncates the rendering of 192.168.1.10
to 4 characters plus the NUL terminator. -/
theorem ip_C10_witness :
    (ip_addr_ntop 167880896 5).getLast? = some nulC ∧
    (ip_addr_ntop 167880896 5).length = min 5 ((renderAddr 167880896).length + 1) ∧
    cstrOf (ip_addr_ntop 167880896 5) = (renderAddr 167880896).take (5 - 1) ∧
    (16 ≤ 5 → cstrOf (ip_addr_ntop 167880896 5) = renderAddr 167880896) :=
  ip_C10_ntop_total 167880896 5 (by decide)
